import Mathlib

/-!
Verification development for the Auckland crash / connected-vehicle linkage
pipeline (spatial proximity matching, temporal scoring, crash-identity
reconciliation, involvement classification, resumable batch orchestration).

Embedding conventions:
* Python floats are idealized as exact rationals; `round(x, 2)` applied when
  records are written to CSV is a presentation detail and is not modelled.
* Euclidean distances are represented by their squares throughout
  (`dist2`); every comparison the code makes on a distance (thresholds,
  strict minima) is equivalent to the corresponding comparison on squared
  distances, the thresholds being squared as well.
* Parsing functions returning a value or failing (datetime and float
  parsing with try/except) become `Option`-valued inputs; timestamps are
  rationals measured in minutes.
* `scipy.spatial.cKDTree.query` is external library code; its result is
  modelled from the spec (section 4.2): at most k results, all within the
  radius, ascending by distance, ties resolved deterministically by index.
-/

/-- A planar point in projected (metric) coordinates. -/
abbrev Pt : Type := ℚ × ℚ

/-- Squared Euclidean distance between two projected points, the square of
`point_to_point_distance` in crash_vehicle_linkage.py. -/
def dist2 (p q : Pt) : ℚ := (q.1 - p.1) ^ 2 + (q.2 - p.2) ^ 2

/-- Absolute value on rationals, written so the kernel evaluates it. -/
def ratAbs (q : ℚ) : ℚ := if q < 0 then -q else q

theorem ratAbs_eq_abs (q : ℚ) : ratAbs q = |q| := by
  by_cases h : q < 0
  · simp [ratAbs, h, abs_of_neg h]
  · simp [ratAbs, h, abs_of_nonneg (le_of_not_lt h)]

/-! ## Temporal Correlator and Scorer (temporal_spatial_matcher.py) -/

/-- A row of the spatial-match input consumed by `temporal_match`:
the crash identifier, the parse result of `closest_timestamp`
(`parse_vehicle_timestamp`: `none` when unparsable), and
`distance_to_crash` in metres. -/
structure SpatialMatch where
  crash_id : ℕ
  closest_timestamp : Option ℚ
  distance_to_crash : ℚ
  deriving DecidableEq, Repr

/-- Lookup of a crash id in the loaded crash table; the value is the parse
result of `parse_crash_datetime` (`none` when the date or time failed to
parse), timestamps in minutes. -/
def crashLookup (crashes : List (ℕ × Option ℚ)) (cid : ℕ) : Option (Option ℚ) :=
  match crashes.find? (fun c => c.1 = cid) with
  | none => none
  | some c => some c.2

/-- `spatial_score = max(0, (25 - spatial_dist) / 25 * 100)` from
temporal_match (temporal_spatial_matcher.py line 192). -/
def spatialScore (d : ℚ) : ℚ := max 0 ((25 - d) / 25 * 100)

/-- `temporal_score = max(0, (time_window - time_diff) / time_window * 100)`
from temporal_match (line 196). -/
def temporalScore (w delta : ℚ) : ℚ := max 0 ((w - delta) / w * 100)

/-- `combined_score = spatial_score * 0.6 + temporal_score * 0.4`
from temporal_match (line 199). -/
def combinedScore (w d delta : ℚ) : ℚ :=
  spatialScore d * (6 / 10) + temporalScore w delta * (4 / 10)

/-- Modelled from the spec: the spec states
spatial_score = clamp((R - distance) / R * 100, 0, 100) where R is the
match radius used by the Proximity Matcher.  This definition follows the
spec words, to be compared against `spatialScore` taken from the source. -/
def specSpatialScore (r d : ℚ) : ℚ := min 100 (max 0 ((r - d) / r * 100))

/-- The match radius default `buffer_distance=100` of
CrashVehicleLinkage.__init__ (crash_vehicle_linkage.py line 21). -/
def defaultBufferDistance : ℚ := 100

/-- An output record of `temporal_match` for one window. -/
structure TemporalRecord where
  src : SpatialMatch
  time_diff_minutes : ℚ
  spatial_score : ℚ
  temporal_score : ℚ
  combined_score : ℚ
  deriving DecidableEq, Repr

/-- The per-candidate body of the `temporal_match` loop
(temporal_spatial_matcher.py lines 161-212) for one time window:
skip when the crash id is unknown, when the crash datetime or the vehicle
timestamp failed to parse, or when the absolute time delta in minutes
exceeds the window; otherwise emit the scored record. -/
def processMatch (crashes : List (ℕ × Option ℚ)) (w : ℚ) (m : SpatialMatch) :
    Option TemporalRecord :=
  match crashLookup crashes m.crash_id with
  | none => none
  | some none => none
  | some (some ct) =>
    match m.closest_timestamp with
    | none => none
    | some vt =>
      let delta := ratAbs (ct - vt)
      if w < delta then none
      else some
        { src := m
          time_diff_minutes := delta
          spatial_score := spatialScore m.distance_to_crash
          temporal_score := temporalScore w delta
          combined_score := combinedScore w m.distance_to_crash delta }

/-- One window of `temporal_match`: the retained, scored candidates in
input order. -/
def temporalMatchWindow (crashes : List (ℕ × Option ℚ)) (ms : List SpatialMatch)
    (w : ℚ) : List TemporalRecord :=
  ms.filterMap (processMatch crashes w)

example :
    processMatch [(1, some 0)] 5
      { crash_id := 1, closest_timestamp := some 2, distance_to_crash := 10 } =
    some { src := { crash_id := 1, closest_timestamp := some 2, distance_to_crash := 10 },
           time_diff_minutes := 2, spatial_score := 60, temporal_score := 60,
           combined_score := 60 } := by
  norm_num [processMatch, crashLookup, ratAbs, spatialScore, temporalScore,
    combinedScore, List.find?]

theorem processMatch_some_inv {crashes : List (ℕ × Option ℚ)} {w : ℚ}
    {m : SpatialMatch} {r : TemporalRecord}
    (h : processMatch crashes w m = some r) :
    ∃ ct vt, crashLookup crashes m.crash_id = some (some ct) ∧
      m.closest_timestamp = some vt ∧ ratAbs (ct - vt) ≤ w ∧
      r = { src := m, time_diff_minutes := ratAbs (ct - vt),
            spatial_score := spatialScore m.distance_to_crash,
            temporal_score := temporalScore w (ratAbs (ct - vt)),
            combined_score := combinedScore w m.distance_to_crash
              (ratAbs (ct - vt)) } := by
  unfold processMatch at h
  rcases h1 : crashLookup crashes m.crash_id with _ | o
  · rw [h1] at h; exact absurd h (by simp)
  · rw [h1] at h
    rcases o with _ | ct
    · exact absurd h (by simp)
    · rcases h2 : m.closest_timestamp with _ | vt
      · rw [h2] at h; exact absurd h (by simp)
      · rw [h2] at h
        simp only [] at h
        split at h
        · exact absurd h (by simp)
        · next hle =>
          refine ⟨ct, vt, rfl, rfl, le_of_not_lt hle, ?_⟩
          exact (Option.some_inj.mp h).symm

theorem processMatch_isSome_iff {crashes : List (ℕ × Option ℚ)} {w : ℚ}
    {m : SpatialMatch} {ct vt : ℚ}
    (hc : crashLookup crashes m.crash_id = some (some ct))
    (hv : m.closest_timestamp = some vt) :
    (processMatch crashes w m).isSome = true ↔ ratAbs (ct - vt) ≤ w := by
  unfold processMatch
  rw [hc, hv]
  simp only []
  split
  · next hlt => simp [not_le.mpr hlt]
  · next hle => simp [le_of_not_lt hle]

theorem temporalMatchWindow_mem_iff {crashes : List (ℕ × Option ℚ)} {w : ℚ}
    {ms : List SpatialMatch} {m : SpatialMatch} (hm : m ∈ ms) :
    (∃ r ∈ temporalMatchWindow crashes ms w, r.src = m) ↔
      (processMatch crashes w m).isSome = true := by
  constructor
  · rintro ⟨r, hr, hsrc⟩
    rcases List.mem_filterMap.mp hr with ⟨x, _, hx⟩
    rcases processMatch_some_inv hx with ⟨ct, vt, _, _, _, hrec⟩
    have hxm : x = m := by rw [← hsrc, hrec]
    rw [hxm] at hx
    simp [hx]
  · intro h
    rcases Option.isSome_iff_exists.mp h with ⟨r, hr⟩
    refine ⟨r, List.mem_filterMap.mpr ⟨m, hm, hr⟩, ?_⟩
    rcases processMatch_some_inv hr with ⟨ct, vt, _, _, _, hrec⟩
    rw [hrec]

/-! ### Claim C1 -/

/-- C1: the claim that spatial_score = clamp((R - distance) / R * 100, 0, 100)
with R the 100 m match radius is false: on the spec's own example (a retained
candidate 10 m from the crash, 2 minutes from the event, 5-minute window) the
code computes spatial_score 60, while the spec formula at the default match
radius gives 90. -/
theorem C1_counterexample :
    (processMatch [(1, some 0)] 5
      { crash_id := 1, closest_timestamp := some 2,
        distance_to_crash := 10 }).map TemporalRecord.spatial_score =
      some 60 ∧
    specSpatialScore defaultBufferDistance 10 = 90 ∧ (60 : ℚ) ≠ 90 := by
  refine ⟨?_, ?_, by norm_num⟩
  · norm_num [processMatch, crashLookup, ratAbs, spatialScore, List.find?]
  · norm_num [specSpatialScore, defaultBufferDistance]

/-- C1 (amended): for every candidate retained by the Temporal Correlator and
Scorer, spatial_score = max(0, (25 - distance) / 25 * 100): the scale is a
hard-coded 25 m, not the 100 m match radius of the Proximity Matcher; in
particular a sample 10 m from the crash site yields spatial_score = 60. -/
theorem C1_amended (crashes : List (ℕ × Option ℚ)) (w : ℚ) (m : SpatialMatch)
    (r : TemporalRecord) (h : processMatch crashes w m = some r) :
    r.spatial_score = max 0 ((25 - m.distance_to_crash) / 25 * 100) := by
  rcases processMatch_some_inv h with ⟨ct, vt, _, _, _, hrec⟩
  rw [hrec]
  rfl

theorem C1_amended_witness :
    (processMatch [(1, some 0)] 5
        { crash_id := 1, closest_timestamp := some 2, distance_to_crash := 10 } =
      some { src := { crash_id := 1, closest_timestamp := some 2,
                      distance_to_crash := 10 },
             time_diff_minutes := 2, spatial_score := 60, temporal_score := 60,
             combined_score := 60 }) ∧
    (60 : ℚ) = max 0 ((25 - 10) / 25 * 100) := by
  have h : processMatch [(1, some 0)] 5
      { crash_id := 1, closest_timestamp := some 2, distance_to_crash := 10 } =
      some { src := { crash_id := 1, closest_timestamp := some 2,
                      distance_to_crash := 10 },
             time_diff_minutes := 2, spatial_score := 60, temporal_score := 60,
             combined_score := 60 } := by
    norm_num [processMatch, crashLookup, ratAbs, spatialScore, temporalScore,
      combinedScore, List.find?]
  exact ⟨h, by simpa using C1_amended _ _ _ _ h⟩

/-! ### Claim C7 -/

/-- C7: for each configured time window W, a candidate with a known crash
event time and a known sample timestamp is retained iff its absolute time
delta in minutes is at most W; consequently a candidate retained for W = 5
is also retained for W in 10, 15, 20. -/
theorem C7_retention (crashes : List (ℕ × Option ℚ)) (ms : List SpatialMatch)
    (m : SpatialMatch) (ct vt : ℚ) (hm : m ∈ ms)
    (hc : crashLookup crashes m.crash_id = some (some ct))
    (hv : m.closest_timestamp = some vt) :
    (∀ w : ℚ, (∃ r ∈ temporalMatchWindow crashes ms w, r.src = m) ↔
        ratAbs (ct - vt) ≤ w) ∧
    ((∃ r ∈ temporalMatchWindow crashes ms 5, r.src = m) →
      ∀ w ∈ ([10, 15, 20] : List ℚ),
        ∃ r ∈ temporalMatchWindow crashes ms w, r.src = m) := by
  have key : ∀ w : ℚ, (∃ r ∈ temporalMatchWindow crashes ms w, r.src = m) ↔
      ratAbs (ct - vt) ≤ w := by
    intro w
    rw [temporalMatchWindow_mem_iff hm, processMatch_isSome_iff hc hv]
  refine ⟨key, ?_⟩
  intro h5 w hw
  have hd : ratAbs (ct - vt) ≤ 5 := (key 5).mp h5
  refine (key w).mpr (le_trans hd ?_)
  simp only [List.mem_cons, List.not_mem_nil, or_false] at hw
  rcases hw with h | h | h
  all_goals rw [h]; norm_num

theorem C7_retention_witness :
    ({ crash_id := 1, closest_timestamp := some 2, distance_to_crash := 10 }
        : SpatialMatch) ∈
      [({ crash_id := 1, closest_timestamp := some 2, distance_to_crash := 10 }
        : SpatialMatch)] ∧
    crashLookup [(1, some 0)] 1 = some (some 0) ∧
    (∃ r ∈ temporalMatchWindow [(1, some 0)]
        [{ crash_id := 1, closest_timestamp := some 2, distance_to_crash := 10 }] 5,
      r.src = { crash_id := 1, closest_timestamp := some 2,
                distance_to_crash := 10 }) := by
  have hm : ({ crash_id := 1, closest_timestamp := some 2, distance_to_crash := 10 }
      : SpatialMatch) ∈
      [({ crash_id := 1, closest_timestamp := some 2, distance_to_crash := 10 }
        : SpatialMatch)] := List.mem_singleton.mpr rfl
  have hc : crashLookup [(1, some 0)] 1 = some (some 0) := by
    norm_num [crashLookup, List.find?]
  refine ⟨hm, hc, ?_⟩
  refine ((C7_retention [(1, some 0)] _ _ 0 2 hm hc rfl).1 5).mpr ?_
  norm_num [ratAbs]

/-! ### Claim C8 -/

theorem spatialScore_antitone {d1 d2 : ℚ} (h : d1 ≤ d2) :
    spatialScore d2 ≤ spatialScore d1 := by
  unfold spatialScore
  apply max_le_max le_rfl
  gcongr

theorem temporalScore_antitone {w t1 t2 : ℚ} (hw : 0 < w) (h : t1 ≤ t2) :
    temporalScore w t2 ≤ temporalScore w t1 := by
  unfold temporalScore
  apply max_le_max le_rfl
  gcongr

theorem combinedScore_antitone_delta {w d t1 t2 : ℚ} (hw : 0 < w) (h : t1 ≤ t2) :
    combinedScore w d t2 ≤ combinedScore w d t1 := by
  unfold combinedScore
  have h2 : temporalScore w t2 ≤ temporalScore w t1 := temporalScore_antitone hw h
  gcongr

theorem combinedScore_antitone_dist {w t d1 d2 : ℚ} (h : d1 ≤ d2) :
    combinedScore w d2 t ≤ combinedScore w d1 t := by
  unfold combinedScore
  have := spatialScore_antitone h
  gcongr

/-- C8: for retained candidates of a window W, combined_score (computed as
0.6 spatial_score + 0.4 temporal_score) is non-increasing in the time delta
at fixed spatial distance, and non-increasing in the spatial distance at
fixed time delta. -/
theorem C8_monotonicity (crashes : List (ℕ × Option ℚ)) (w : ℚ) (hw : 0 < w)
    (m1 m2 : SpatialMatch) (r1 r2 : TemporalRecord)
    (h1 : processMatch crashes w m1 = some r1)
    (h2 : processMatch crashes w m2 = some r2) :
    (m1.distance_to_crash = m2.distance_to_crash →
      r1.time_diff_minutes ≤ r2.time_diff_minutes →
      r2.combined_score ≤ r1.combined_score) ∧
    (r1.time_diff_minutes = r2.time_diff_minutes →
      m1.distance_to_crash ≤ m2.distance_to_crash →
      r2.combined_score ≤ r1.combined_score) := by
  rcases processMatch_some_inv h1 with ⟨ct1, vt1, _, _, _, e1⟩
  rcases processMatch_some_inv h2 with ⟨ct2, vt2, _, _, _, e2⟩
  subst e1; subst e2
  constructor
  · intro hd ht
    simp only [] at ht ⊢
    rw [← hd]
    exact combinedScore_antitone_delta hw ht
  · intro ht hd
    simp only [] at ht ⊢
    rw [← ht]
    exact combinedScore_antitone_dist hd

theorem C8_monotonicity_witness :
    (0 : ℚ) < 5 ∧
    (processMatch [(1, some 0)] 5
        { crash_id := 1, closest_timestamp := some 2, distance_to_crash := 10 } =
      some { src := { crash_id := 1, closest_timestamp := some 2,
                      distance_to_crash := 10 },
             time_diff_minutes := 2, spatial_score := 60, temporal_score := 60,
             combined_score := 60 }) ∧
    (processMatch [(1, some 0)] 5
        { crash_id := 1, closest_timestamp := some 3, distance_to_crash := 10 } =
      some { src := { crash_id := 1, closest_timestamp := some 3,
                      distance_to_crash := 10 },
             time_diff_minutes := 3, spatial_score := 60, temporal_score := 40,
             combined_score := 52 }) ∧
    (52 : ℚ) ≤ 60 := by
  have hw : (0 : ℚ) < 5 := by norm_num
  have h1 : processMatch [(1, some 0)] 5
      { crash_id := 1, closest_timestamp := some 2, distance_to_crash := 10 } =
      some { src := { crash_id := 1, closest_timestamp := some 2,
                      distance_to_crash := 10 },
             time_diff_minutes := 2, spatial_score := 60, temporal_score := 60,
             combined_score := 60 } := by
    norm_num [processMatch, crashLookup, ratAbs, spatialScore, temporalScore,
      combinedScore, List.find?]
  have h2 : processMatch [(1, some 0)] 5
      { crash_id := 1, closest_timestamp := some 3, distance_to_crash := 10 } =
      some { src := { crash_id := 1, closest_timestamp := some 3,
                      distance_to_crash := 10 },
             time_diff_minutes := 3, spatial_score := 60, temporal_score := 40,
             combined_score := 52 } := by
    norm_num [processMatch, crashLookup, ratAbs, spatialScore, temporalScore,
      combinedScore, List.find?]
  refine ⟨hw, h1, h2, ?_⟩
  have := (C8_monotonicity [(1, some 0)] 5 hw _ _ _ _ h1 h2).1 rfl (by norm_num)
  simpa using this

/-! ## Batch Orchestrator (run_full_analysis.py, resume_analysis_efficient.py)

Output rows are abstracted as natural numbers; a durable CSV is a list of
rows (the header is not counted, matching count_existing_matches which
subtracts it). -/

/-- count_existing_matches (resume_analysis_efficient.py lines 11-22):
the row count of the durable output and the estimated number of completed
files at about 270000 matches per file. -/
def countExistingMatches (output : List ℕ) : ℕ × ℕ :=
  (output.length, output.length / 270000)

/-- start_index computed by resume_analysis (resume_analysis_efficient.py
line 50): the estimated completed-file count capped at one less than the
number of vehicle files. -/
def resumeStart (output : List ℕ) (nFiles : ℕ) : ℕ :=
  min (countExistingMatches output).2 (nFiles - 1)

/-- The append-only processing loop of resume_analysis (lines 67-92),
restricted to clean runs (no exceptions): state of the durable output after
j partitions of the remaining list have completed; each partition's matches
are appended immediately on completion (mode a). -/
def appendRun (rem : List (List ℕ)) (init : List ℕ) : ℕ → List ℕ
  | 0 => init
  | j + 1 => appendRun rem init j ++ rem.getD j []

/-- resume_analysis (resume_analysis_efficient.py lines 44-102) on an
existing durable output: process the files from start_index on, appending
each file's matches. -/
def resumeRun (files : List (List ℕ)) (output : List ℕ) : List ℕ :=
  appendRun (files.drop (resumeStart output files.length)) output
    (files.length - resumeStart output files.length)

/-- The run_full_analysis loop (run_full_analysis.py lines 38-58),
restricted to clean runs: state (all_matches held in memory, durable CSV
content) after j files.  The durable file is rewritten with the whole of
all_matches only when the 1-based file index is a multiple of
batch_size = 10 or is the final file. -/
def runFullState (files : List (List ℕ)) : ℕ → List ℕ × List ℕ
  | 0 => ([], [])
  | j + 1 =>
    let prev := runFullState files j
    let all := prev.1 ++ files.getD j []
    (all, if (j + 1) % 10 = 0 ∨ j + 1 = files.length then all else prev.2)

/-- The 1-based index of the last save point of run_full_analysis at or
before the j-th completed file. -/
def lastSave (n j : ℕ) : ℕ := if j = n then j else 10 * (j / 10)

theorem join_take_succ (l : List (List ℕ)) (j : ℕ) :
    (l.take (j + 1)).flatten = (l.take j).flatten ++ l.getD j [] := by
  rw [List.take_succ, List.flatten_append]
  rcases h : l[j]? with _ | a
  · simp [List.getD, h]
  · simp [List.getD, h]

theorem appendRun_eq (rem : List (List ℕ)) (init : List ℕ) (j : ℕ) :
    appendRun rem init j = init ++ (rem.take j).flatten := by
  induction j with
  | zero => simp [appendRun]
  | succ j ih => rw [appendRun, ih, join_take_succ, List.append_assoc]

/-! ### Claim C2 -/

/-- C2: re-running the Batch Orchestrator after a clean, fully completed
run is claimed to produce zero additional output records.  False: with one
vehicle file producing one match, the completed output has 1 row, the
resume estimate is min(1 / 270000, 0) = 0, so the file is reprocessed and
its match is appended again, leaving 2 rows. -/
theorem C2_counterexample :
    ([[0]] : List (List ℕ)).flatten = [0] ∧
    resumeRun [[0]] [0] = [0, 0] ∧ ([0, 0] : List ℕ) ≠ [0] := by
  refine ⟨by decide, ?_, by decide⟩
  decide

/-- C2 (amended): resume after a clean completed run restarts from file
index min(row_count / 270000, n_files - 1) and appends those files' matches
again: the durable output becomes the original rows followed by the matches
of every file from that index on, and (the start index being capped at
n_files - 1) at least the final file is always reprocessed, so re-running
adds records whenever the reprocessed files have any matches. -/
theorem C2_amended (files : List (List ℕ)) :
    resumeRun files files.flatten =
      files.flatten ++ (files.drop (resumeStart files.flatten files.length)).flatten ∧
    (files ≠ [] → files.drop (resumeStart files.flatten files.length) ≠ []) := by
  constructor
  · rw [resumeRun, appendRun_eq]
    have hlen : (files.drop (resumeStart files.flatten files.length)).length =
        files.length - resumeStart files.flatten files.length := by
      simp
    rw [← hlen, List.take_length]
  · intro hne
    have hpos : 0 < files.length := List.length_pos.mpr hne
    have hlt : resumeStart files.flatten files.length < files.length := by
      have : files.length - 1 < files.length := by omega
      exact lt_of_le_of_lt (min_le_right _ _) this
    intro hdrop
    have := List.drop_eq_nil_iff.mp hdrop
    omega

theorem C2_amended_witness :
    ([[0]] : List (List ℕ)) ≠ [] ∧
    ([[0]] : List (List ℕ)).drop
      (resumeStart ([[0]] : List (List ℕ)).flatten ([[0]] : List (List ℕ)).length) ≠ [] :=
  ⟨by decide, (C2_amended [[0]]).2 (by decide)⟩

/-! ### Claim C6 -/

/-- C6: each partition's matches are claimed to be appended to durable
output immediately upon the partition's completion, never buffered across
partitions.  False for run_full_analysis: with two files, after the first
file (one match) completes, the durable output is still empty — the match
sits only in the in-memory buffer, because saving happens every 10 files
and at the final file only. -/
theorem C6_counterexample :
    (runFullState [[0], [1]] 1).2 = [] ∧ (runFullState [[0], [1]] 1).1 = [0] := by
  decide

/-- C6 (amended): run_full_analysis buffers matches in memory and rewrites
the durable output only when the 1-based partition index is a multiple of
10 or is the final partition: after j completed partitions the durable
output holds exactly the matches of the first lastSave(n, j) partitions,
and at most 10 partitions of work (j - lastSave(n, j) < 10) is unsaved.
The memory-efficient resume orchestrator does append each partition's
matches immediately upon that partition's completion. -/
theorem C6_amended (files : List (List ℕ)) :
    (∀ j, j ≤ files.length →
      runFullState files j =
        ((files.take j).flatten, (files.take (lastSave files.length j)).flatten)) ∧
    (∀ j, j ≤ files.length → j - lastSave files.length j < 10) ∧
    (∀ rem init j, appendRun rem init (j + 1) = appendRun rem init j ++ rem.getD j []) := by
  refine ⟨?_, ?_, fun rem init j => rfl⟩
  · intro j hj
    induction j with
    | zero => simp [runFullState, lastSave]
    | succ j ih =>
      have hj' : j ≤ files.length := Nat.le_of_succ_le hj
      have prev := ih hj'
      rw [runFullState, prev]
      simp only []
      rw [← join_take_succ]
      split
      · next hsave =>
        rcases hsave with hmod | hlast
        · have : lastSave files.length (j + 1) = j + 1 := by
            unfold lastSave
            split
            · next h => rw [h]
            · omega
          rw [this]
        · have : lastSave files.length (j + 1) = j + 1 := by
            unfold lastSave
            rw [if_pos hlast]
          rw [this]
      · next hsave =>
        push_neg at hsave
        have hne : j + 1 ≠ files.length := hsave.2
        have hmod : (j + 1) % 10 ≠ 0 := hsave.1
        have hjn : j ≠ files.length := by omega
        have : lastSave files.length (j + 1) = lastSave files.length j := by
          unfold lastSave
          rw [if_neg hne, if_neg hjn]
          omega
        rw [this]
  · intro j hj
    unfold lastSave
    split
    · omega
    · omega

theorem C6_amended_witness :
    (1 ≤ ([[0], [1]] : List (List ℕ)).length) ∧
    runFullState [[0], [1]] 1 =
      ((([[0], [1]] : List (List ℕ)).take 1).flatten,
       (([[0], [1]] : List (List ℕ)).take
         (lastSave ([[0], [1]] : List (List ℕ)).length 1)).flatten) := by
  have h := (C6_amended [[0], [1]]).1 1 (by decide)
  exact ⟨by decide, h⟩

/-! ## Proximity Matcher (crash_vehicle_linkage.py find_nearby_crashes)

The kd-tree query `self.crash_tree.query(path_array, k=10,
distance_upper_bound=self.buffer_distance)` is external library code; per
the spec (section 4.2) it returns, for each sample, at most k results, all
within the radius, ascending by distance, resolving ties deterministically
(here: by crash index).  Distances are represented squared. -/

/-- Ascending (squared distance, crash index) order of query results. -/
def le2 (a b : ℚ × ℕ) : Prop := a.1 < b.1 ∨ (a.1 = b.1 ∧ a.2 ≤ b.2)

instance : DecidableRel le2 := fun a b => by unfold le2; infer_instance

/-- The crashes within the squared radius of a sample, as
(squared distance, crash index) pairs in crash order. -/
def withinRadius (crashes : List Pt) (p : Pt) (r2 : ℚ) : List (ℚ × ℕ) :=
  (crashes.enum.map fun ic => (dist2 p ic.2, ic.1)).filter fun dc => dc.1 ≤ r2

/-- Modelled from the spec: the result of `crash_tree.query(p, k,
distance_upper_bound)` joined with the loop's own `dist <= buffer` and
`crash_idx < len(crashes)` guards — the k nearest crashes within the
radius, ascending by distance. -/
def nearestK (crashes : List Pt) (p : Pt) (k : ℕ) (r2 : ℚ) : List (ℚ × ℕ) :=
  ((withinRadius crashes p r2).insertionSort le2).take k

/-- `crash_matches[crash_idx] = (dist, point_idx)` guarded by
`if crash_idx not in crash_matches or dist < crash_matches[crash_idx][0]`
(crash_vehicle_linkage.py line 92), on an insertion-ordered association
list exactly as a Python dict. -/
def dictInsert : List (ℕ × ℚ × ℕ) → ℕ → ℚ → ℕ → List (ℕ × ℚ × ℕ)
  | [], ci, d, pj => [(ci, d, pj)]
  | (c, dv, pv) :: rest, ci, d, pj =>
    if c = ci then
      (if d < dv then (c, d, pj) :: rest else (c, dv, pv) :: rest)
    else (c, dv, pv) :: dictInsert rest ci d pj

/-- Lookup in the crash_matches association list. -/
def dictLookup : List (ℕ × ℚ × ℕ) → ℕ → Option (ℚ × ℕ)
  | [], _ => none
  | (c, dv, pv) :: rest, ci => if c = ci then some (dv, pv) else dictLookup rest ci

/-- The double loop of find_nearby_crashes (lines 89-93) over an already
enumerated sample list (sample index, projected point). -/
def findNearbyEnum (crashes : List Pt) (r2 : ℚ) (k : ℕ)
    (epath : List (ℕ × Pt)) : List (ℕ × ℚ × ℕ) :=
  epath.foldl (fun cm ip =>
    (nearestK crashes ip.2 k r2).foldl
      (fun cm2 dc => dictInsert cm2 dc.2 dc.1 ip.1) cm) []

/-- find_nearby_crashes: one best (squared distance, sample index) entry per
crash found within the radius of some sample of the path. -/
def findNearbyCrashes (crashes : List Pt) (r2 : ℚ) (k : ℕ) (path : List Pt) :
    List (ℕ × ℚ × ℕ) :=
  findNearbyEnum crashes r2 k path.enum

/-- The reference update: keep the incumbent unless the new distance is
strictly smaller. -/
def updateBest (o : Option (ℚ × ℕ)) (d : ℚ) (pj : ℕ) : Option (ℚ × ℕ) :=
  match o with
  | none => some (d, pj)
  | some (dv, pv) => if d < dv then some (d, pj) else some (dv, pv)

/-- Folding the reference update over a list of
(squared distance, sample index) hits. -/
def bestOf (l : List (ℚ × ℕ)) (o : Option (ℚ × ℕ)) : Option (ℚ × ℕ) :=
  l.foldl (fun acc dj => updateBest acc dj.1 dj.2) o

/-- All hits the double loop produces for crash index ci: for each sample,
the query entries naming ci. -/
def allHits (crashes : List Pt) (r2 : ℚ) (k : ℕ) (ci : ℕ)
    (epath : List (ℕ × Pt)) : List (ℚ × ℕ) :=
  epath.flatMap fun ip =>
    (nearestK crashes ip.2 k r2).filterMap fun dc =>
      if dc.2 = ci then some (dc.1, ip.1) else none

/-- The samples of the path within the squared radius of crash c, as
(squared distance, sample index) pairs in sample order. -/
def withinHits (c : Pt) (r2 : ℚ) (epath : List (ℕ × Pt)) : List (ℚ × ℕ) :=
  epath.filterMap fun ip =>
    if dist2 ip.2 c ≤ r2 then some (dist2 ip.2 c, ip.1) else none

theorem dictLookup_dictInsert (cm : List (ℕ × ℚ × ℕ)) (c ci : ℕ) (d : ℚ) (pj : ℕ) :
    dictLookup (dictInsert cm c d pj) ci =
      if c = ci then updateBest (dictLookup cm ci) d pj else dictLookup cm ci := by
  induction cm with
  | nil =>
    by_cases h : c = ci <;> simp [dictInsert, dictLookup, updateBest, h]
  | cons hd rest ih =>
    obtain ⟨c0, dv, pv⟩ := hd
    by_cases h0 : c0 = c
    · subst h0
      by_cases h : c0 = ci
      · subst h
        by_cases hlt : d < dv <;>
          simp [dictInsert, dictLookup, updateBest, hlt]
      · by_cases hlt : d < dv <;>
          simp [dictInsert, dictLookup, h, hlt]
    · by_cases h : c0 = ci
      · subst h
        have hne : c ≠ c0 := fun hh => h0 hh.symm
        simp [dictInsert, dictLookup, h0, hne]
      · simp [dictInsert, dictLookup, h0, h, ih]

theorem bestOf_append (l1 l2 : List (ℚ × ℕ)) (o : Option (ℚ × ℕ)) :
    bestOf (l1 ++ l2) o = bestOf l2 (bestOf l1 o) :=
  List.foldl_append _ _ _ _

theorem innerFold_lookup (hits : List (ℚ × ℕ)) (cm : List (ℕ × ℚ × ℕ))
    (ci pj : ℕ) :
    dictLookup (hits.foldl (fun cm2 dc => dictInsert cm2 dc.2 dc.1 pj) cm) ci =
      bestOf (hits.filterMap fun dc =>
        if dc.2 = ci then some (dc.1, pj) else none) (dictLookup cm ci) := by
  induction hits generalizing cm with
  | nil => simp [bestOf]
  | cons hd rest ih =>
    by_cases h : hd.2 = ci
    · rw [List.foldl_cons, ih, List.filterMap_cons, dictLookup_dictInsert,
        if_pos h, if_pos h]
      rfl
    · rw [List.foldl_cons, ih, List.filterMap_cons, dictLookup_dictInsert,
        if_neg h, if_neg h]

theorem findNearbyEnum_lookup_aux (crashes : List Pt) (r2 : ℚ) (k : ℕ)
    (ci : ℕ) (epath : List (ℕ × Pt)) (cm : List (ℕ × ℚ × ℕ)) :
    dictLookup (epath.foldl (fun cm ip =>
        (nearestK crashes ip.2 k r2).foldl
          (fun cm2 dc => dictInsert cm2 dc.2 dc.1 ip.1) cm) cm) ci =
      bestOf (allHits crashes r2 k ci epath) (dictLookup cm ci) := by
  induction epath generalizing cm with
  | nil => simp [allHits, bestOf]
  | cons ip rest ih =>
    rw [List.foldl_cons, ih]
    unfold allHits
    rw [List.flatMap_cons, bestOf_append, innerFold_lookup]

/-- The crash_matches lookup equals the reference fold over all query hits. -/
theorem findNearbyEnum_lookup (crashes : List Pt) (r2 : ℚ) (k : ℕ)
    (ci : ℕ) (epath : List (ℕ × Pt)) :
    dictLookup (findNearbyEnum crashes r2 k epath) ci =
      bestOf (allHits crashes r2 k ci epath) none :=
  findNearbyEnum_lookup_aux crashes r2 k ci epath []

theorem filterMap_filter_eq {α β : Type} (q : α → Bool) (f : α → Option β)
    (l : List α) :
    (l.filter q).filterMap f =
      l.filterMap fun x => if q x = true then f x else none := by
  induction l with
  | nil => rfl
  | cons a l ih =>
    by_cases h : q a = true
    · rw [List.filter_cons_of_pos h, List.filterMap_cons, List.filterMap_cons,
        if_pos h, ih]
    · rw [List.filter_cons_of_neg (by simpa using h), List.filterMap_cons,
        if_neg h, ih]

theorem enumFrom_filterMap_gt (h : Pt → Option (ℚ × ℕ)) (ci : ℕ) :
    ∀ (cs : List Pt) (n : ℕ), ci < n →
      ((List.enumFrom n cs).filterMap fun jc =>
        if jc.1 = ci then h jc.2 else none) = [] := by
  intro cs
  induction cs with
  | nil => intro n _; rfl
  | cons c rest ih =>
    intro n hn
    rw [List.enumFrom_cons, List.filterMap_cons, if_neg (by omega)]
    exact ih (n + 1) (by omega)

theorem enumFrom_filterMap_idx (h : Pt → Option (ℚ × ℕ)) (ci : ℕ) :
    ∀ (cs : List Pt) (n : ℕ), n ≤ ci →
      ((List.enumFrom n cs).filterMap fun jc =>
        if jc.1 = ci then h jc.2 else none) =
      (match cs[ci - n]? with
       | none => ([] : List (ℚ × ℕ))
       | some c => (h c).toList) := by
  intro cs
  induction cs with
  | nil => intro n _; rfl
  | cons c rest ih =>
    intro n hn
    rw [List.enumFrom_cons, List.filterMap_cons]
    by_cases he : n = ci
    · have hz : ci - n = 0 := by omega
      rw [if_pos he, hz]
      have htail := enumFrom_filterMap_gt h ci rest (n + 1) (by omega)
      rcases hh : h c with _ | b
      · simpa [hh] using htail
      · simp only [hh]
        rw [htail]
        simp [hh]
    · have hlt : n < ci := by omega
      rw [if_neg he, ih (n + 1) (by omega)]
      have : ci - n = (ci - (n + 1)) + 1 := by omega
      rw [this, List.getElem?_cons_succ]

theorem withinRadius_filterMap (crashes : List Pt) (p : Pt) (r2 : ℚ)
    (ci i : ℕ) (hci : ci < crashes.length) :
    ((withinRadius crashes p r2).filterMap fun dc =>
        if dc.2 = ci then some (dc.1, i) else none) =
      if dist2 p (crashes.getD ci (0, 0)) ≤ r2 then
        [(dist2 p (crashes.getD ci (0, 0)), i)] else [] := by
  unfold withinRadius
  rw [filterMap_filter_eq, List.filterMap_map]
  have hfun : ((fun x : ℚ × ℕ =>
        if (decide (x.1 ≤ r2)) = true then
          (if x.2 = ci then some (x.1, i) else none) else none) ∘
      fun ic : ℕ × Pt => (dist2 p ic.2, ic.1)) =
      fun jc : ℕ × Pt => if jc.1 = ci then
        (if dist2 p jc.2 ≤ r2 then some (dist2 p jc.2, i) else none) else none := by
    funext jc
    by_cases h1 : dist2 p jc.2 ≤ r2 <;> by_cases h2 : jc.1 = ci <;>
      simp [h1, h2]
  rw [hfun]
  have := enumFrom_filterMap_idx
    (fun c => if dist2 p c ≤ r2 then some (dist2 p c, i) else none) ci crashes 0
    (by omega)
  have henum : crashes.enum = List.enumFrom 0 crashes := rfl
  rw [henum, this]
  have hz : ci - 0 = ci := by omega
  rw [hz]
  have hget : crashes[ci]? = some (crashes.getD ci (0, 0)) := by
    rw [List.getD_eq_getElem?_getD, List.getElem?_eq_getElem hci]
    simp [List.getElem?_eq_getElem hci]
  rw [hget]
  split
  · next heq => exact absurd heq (by simp)
  · next c hc =>
    obtain rfl : crashes.getD ci (0, 0) = c := Option.some_inj.mp hc
    show (if dist2 p (crashes.getD ci (0, 0)) ≤ r2 then
        some (dist2 p (crashes.getD ci (0, 0)), i) else none).toList =
      if dist2 p (crashes.getD ci (0, 0)) ≤ r2 then
        [(dist2 p (crashes.getD ci (0, 0)), i)] else []
    by_cases hin : dist2 p (crashes.getD ci (0, 0)) ≤ r2
    · rw [if_pos hin, if_pos hin]
      rfl
    · rw [if_neg hin, if_neg hin]
      rfl

theorem nearestK_filterMap_eq (crashes : List Pt) (p : Pt) (k : ℕ) (r2 : ℚ)
    (ci i : ℕ) (hk : (withinRadius crashes p r2).length ≤ k)
    (hci : ci < crashes.length) :
    ((nearestK crashes p k r2).filterMap fun dc =>
        if dc.2 = ci then some (dc.1, i) else none) =
      if dist2 p (crashes.getD ci (0, 0)) ≤ r2 then
        [(dist2 p (crashes.getD ci (0, 0)), i)] else [] := by
  have hlen : ((withinRadius crashes p r2).insertionSort le2).length ≤ k := by
    rw [List.length_insertionSort]; exact hk
  have htake : nearestK crashes p k r2 =
      (withinRadius crashes p r2).insertionSort le2 := by
    unfold nearestK
    exact List.take_of_length_le hlen
  have hperm : ((nearestK crashes p k r2).filterMap fun dc =>
      if dc.2 = ci then some (dc.1, i) else none).Perm
      ((withinRadius crashes p r2).filterMap fun dc =>
        if dc.2 = ci then some (dc.1, i) else none) := by
    rw [htake]
    exact (List.perm_insertionSort le2 _).filterMap _
  rw [withinRadius_filterMap crashes p r2 ci i hci] at hperm
  by_cases hin : dist2 p (crashes.getD ci (0, 0)) ≤ r2
  · rw [if_pos hin] at hperm ⊢
    exact List.perm_singleton.mp hperm
  · rw [if_neg hin] at hperm ⊢
    exact hperm.eq_nil

theorem allHits_eq_withinHits (crashes : List Pt) (r2 : ℚ) (k : ℕ) (ci : ℕ)
    (epath : List (ℕ × Pt)) (hci : ci < crashes.length)
    (hk : ∀ ip ∈ epath, (withinRadius crashes ip.2 r2).length ≤ k) :
    allHits crashes r2 k ci epath =
      withinHits (crashes.getD ci (0, 0)) r2 epath := by
  induction epath with
  | nil => rfl
  | cons ip rest ih =>
    have hk0 := hk ip (by simp)
    have hkrest : ∀ ip ∈ rest, (withinRadius crashes ip.2 r2).length ≤ k :=
      fun x hx => hk x (by simp [hx])
    unfold allHits withinHits
    rw [List.flatMap_cons, List.filterMap_cons]
    have hq := nearestK_filterMap_eq crashes ip.2 k r2 ci ip.1 hk0 hci
    rw [hq]
    have htail : (rest.flatMap fun ip =>
        (nearestK crashes ip.2 k r2).filterMap fun dc =>
          if dc.2 = ci then some (dc.1, ip.1) else none) =
        rest.filterMap fun ip =>
          if dist2 ip.2 (crashes.getD ci (0, 0)) ≤ r2 then
            some (dist2 ip.2 (crashes.getD ci (0, 0)), ip.1) else none := by
      have := ih hkrest
      unfold allHits withinHits at this
      exact this
    rw [htail]
    by_cases hin : dist2 ip.2 (crashes.getD ci (0, 0)) ≤ r2
    · rw [if_pos hin, if_pos hin]
      rfl
    · rw [if_neg hin, if_neg hin]
      rfl

theorem updateBest_some (y : ℚ × ℕ) (d : ℚ) (pj : ℕ) :
    updateBest (some y) d pj = some (if d < y.1 then (d, pj) else y) := by
  rcases y with ⟨dv, pv⟩
  by_cases h : d < dv <;> simp [updateBest, h]

theorem bestOf_cons (x : ℚ × ℕ) (l : List (ℚ × ℕ)) (o : Option (ℚ × ℕ)) :
    bestOf (x :: l) o = bestOf l (updateBest o x.1 x.2) := rfl

theorem bestOf_some_isSome (l : List (ℚ × ℕ)) :
    ∀ y, (bestOf l (some y)).isSome = true := by
  induction l with
  | nil => intro y; rfl
  | cons x rest ih =>
    intro y
    rw [bestOf_cons, updateBest_some]
    exact ih _

theorem bestOf_none_iff (l : List (ℚ × ℕ)) :
    bestOf l none = none ↔ l = [] := by
  cases l with
  | nil => simp [bestOf]
  | cons x rest =>
    rw [bestOf_cons]
    have h0 : updateBest none x.1 x.2 = some (x.1, x.2) := rfl
    rw [h0]
    constructor
    · intro h
      have := bestOf_some_isSome rest (x.1, x.2)
      rw [h] at this
      exact absurd this (by simp)
    · intro h
      exact absurd h (by simp)

theorem bestOf_min_aux (l : List (ℚ × ℕ)) :
    ∀ (y z : ℚ × ℕ), bestOf l (some y) = some z →
      (z = y ∨ z ∈ l) ∧ z.1 ≤ y.1 ∧ ∀ x ∈ l, z.1 ≤ x.1 := by
  induction l with
  | nil =>
    intro y z h
    have hzy : z = y := (Option.some_inj.mp h).symm
    subst hzy
    exact ⟨Or.inl rfl, le_rfl, by simp⟩
  | cons x rest ih =>
    intro y z h
    rw [bestOf_cons, updateBest_some] at h
    rcases ih _ z h with ⟨hmem, hle, hall⟩
    by_cases hcmp : x.1 < y.1
    · rw [if_pos hcmp] at hmem hle
      refine ⟨?_, ?_, ?_⟩
      · rcases hmem with rfl | hm
        · exact Or.inr (by simp)
        · exact Or.inr (List.mem_cons_of_mem _ hm)
      · exact le_trans hle (le_of_lt hcmp)
      · intro a ha
        rcases List.mem_cons.mp ha with rfl | hm
        · exact hle
        · exact hall a hm
    · rw [if_neg hcmp] at hmem hle
      have hyx : y.1 ≤ x.1 := le_of_not_lt hcmp
      refine ⟨?_, hle, ?_⟩
      · rcases hmem with rfl | hm
        · exact Or.inl rfl
        · exact Or.inr (List.mem_cons_of_mem _ hm)
      · intro a ha
        rcases List.mem_cons.mp ha with rfl | hm
        · exact le_trans hle hyx
        · exact hall a hm

theorem bestOf_none_min (l : List (ℚ × ℕ)) (z : ℚ × ℕ)
    (h : bestOf l none = some z) : z ∈ l ∧ ∀ x ∈ l, z.1 ≤ x.1 := by
  cases l with
  | nil => exact absurd h (by simp [bestOf])
  | cons x rest =>
    rw [bestOf_cons] at h
    have h0 : updateBest none x.1 x.2 = some (x.1, x.2) := rfl
    rw [h0] at h
    rcases bestOf_min_aux rest _ z h with ⟨hmem, hle, hall⟩
    constructor
    · rcases hmem with rfl | hm
      · simp
      · exact List.mem_cons_of_mem _ hm
    · intro a ha
      rcases List.mem_cons.mp ha with rfl | hm
      · exact hle
      · exact hall a hm

theorem bestOf_fst_perm {l1 l2 : List (ℚ × ℕ)} (hp : l1.Perm l2) :
    (bestOf l1 none).map Prod.fst = (bestOf l2 none).map Prod.fst := by
  rcases h1 : bestOf l1 none with _ | z1
  · have hl1 : l1 = [] := (bestOf_none_iff l1).mp h1
    have hl2 : l2 = [] := by
      rw [hl1] at hp
      exact hp.symm.eq_nil
    rw [(bestOf_none_iff l2).mpr hl2]
  · rcases h2 : bestOf l2 none with _ | z2
    · have hl2 : l2 = [] := (bestOf_none_iff l2).mp h2
      have hl1 : l1 = [] := by
        rw [hl2] at hp
        exact hp.eq_nil
      rw [hl1] at h1
      exact absurd h1 (by simp [bestOf])
    · rcases bestOf_none_min l1 z1 h1 with ⟨hm1, hall1⟩
      rcases bestOf_none_min l2 z2 h2 with ⟨hm2, hall2⟩
      have e1 : z1.1 ≤ z2.1 := hall1 z2 (hp.symm.subset hm2)
      have e2 : z2.1 ≤ z1.1 := hall2 z1 (hp.subset hm1)
      simp [le_antisymm e1 e2]

theorem bestOf_tie_aux (l : List (ℚ × ℕ)) :
    ∀ (y z : ℚ × ℕ), l.Pairwise (fun a b => a.2 < b.2) →
      (∀ x ∈ l, y.2 < x.2) →
      bestOf l (some y) = some z →
      (z = y ∨ (z ∈ l ∧ z.1 < y.1)) ∧
      ∀ x ∈ l, z.1 < x.1 ∨ (z.1 = x.1 ∧ z.2 ≤ x.2) := by
  induction l with
  | nil =>
    intro y z _ _ h
    have hzy : z = y := (Option.some_inj.mp h).symm
    exact ⟨Or.inl hzy, by simp⟩
  | cons x rest ih =>
    intro y z hpw hy h
    rw [bestOf_cons, updateBest_some] at h
    have hpw_rest := (List.pairwise_cons.mp hpw).2
    have hx_rest := (List.pairwise_cons.mp hpw).1
    by_cases hcmp : x.1 < y.1
    · rw [if_pos hcmp] at h
      rcases ih (x.1, x.2) z hpw_rest (by simpa using hx_rest) h with ⟨hm, hall⟩
      refine ⟨?_, ?_⟩
      · rcases hm with rfl | ⟨hmem, hlt⟩
        · exact Or.inr ⟨by simp, by simpa using hcmp⟩
        · exact Or.inr ⟨List.mem_cons_of_mem _ hmem,
            lt_trans (by simpa using hlt) hcmp⟩
      · intro a ha
        rcases List.mem_cons.mp ha with rfl | hmem
        · rcases hm with rfl | ⟨_, hlt⟩
          · exact Or.inr ⟨by simp, by simp⟩
          · exact Or.inl (by simpa using hlt)
        · exact hall a hmem
    · rw [if_neg hcmp] at h
      have hyle : y.1 ≤ x.1 := le_of_not_lt hcmp
      have hyr : ∀ a ∈ rest, y.2 < a.2 :=
        fun a ha => hy a (List.mem_cons_of_mem _ ha)
      rcases ih y z hpw_rest hyr h with ⟨hm, hall⟩
      refine ⟨?_, ?_⟩
      · rcases hm with rfl | ⟨hmem, hlt⟩
        · exact Or.inl rfl
        · exact Or.inr ⟨List.mem_cons_of_mem _ hmem, hlt⟩
      · intro a ha
        rcases List.mem_cons.mp ha with rfl | hmem
        · rcases hm with rfl | ⟨_, hlt⟩
          · rcases lt_or_eq_of_le hyle with hlt2 | heq
            · exact Or.inl hlt2
            · exact Or.inr ⟨heq, le_of_lt (hy a (by simp))⟩
          · exact Or.inl (lt_of_lt_of_le hlt hyle)
        · exact hall a hmem

theorem bestOf_none_tie (l : List (ℚ × ℕ)) (z : ℚ × ℕ)
    (hpw : l.Pairwise (fun a b => a.2 < b.2))
    (h : bestOf l none = some z) :
    z ∈ l ∧ ∀ x ∈ l, z.1 < x.1 ∨ (z.1 = x.1 ∧ z.2 ≤ x.2) := by
  cases l with
  | nil => exact absurd h (by simp [bestOf])
  | cons x rest =>
    rw [bestOf_cons] at h
    have h0 : updateBest none x.1 x.2 = some (x.1, x.2) := rfl
    rw [h0] at h
    have hpw_rest := (List.pairwise_cons.mp hpw).2
    have hx_rest := (List.pairwise_cons.mp hpw).1
    rcases bestOf_tie_aux rest (x.1, x.2) z hpw_rest (by simpa using hx_rest) h
      with ⟨hm, hall⟩
    constructor
    · rcases hm with rfl | ⟨hmem, _⟩
      · simp
      · exact List.mem_cons_of_mem _ hmem
    · intro a ha
      rcases List.mem_cons.mp ha with rfl | hmem
      · rcases hm with rfl | ⟨_, hlt⟩
        · exact Or.inr ⟨by simp, by simp⟩
        · exact Or.inl (by simpa using hlt)
      · exact hall a hmem

/-- The crash indices present in the crash_matches association list. -/
def dictKeys (cm : List (ℕ × ℚ × ℕ)) : List ℕ := cm.map fun e => e.1

theorem mem_dictKeys_dictInsert (cm : List (ℕ × ℚ × ℕ)) (c x : ℕ) (d : ℚ)
    (pj : ℕ) :
    x ∈ dictKeys (dictInsert cm c d pj) ↔ x ∈ dictKeys cm ∨ x = c := by
  induction cm with
  | nil =>
    simp [dictInsert, dictKeys]
  | cons hd rest ih =>
    obtain ⟨c0, dv, pv⟩ := hd
    by_cases h : c0 = c
    · subst h
      by_cases hlt : d < dv <;>
        · simp [dictInsert, dictKeys, hlt]
          tauto
    · simp only [dictInsert, if_neg h, dictKeys, List.map_cons, List.mem_cons]
      rw [dictKeys] at ih
      rw [ih]
      tauto

theorem nodup_dictKeys_dictInsert (cm : List (ℕ × ℚ × ℕ)) (c : ℕ) (d : ℚ)
    (pj : ℕ) (h : (dictKeys cm).Nodup) :
    (dictKeys (dictInsert cm c d pj)).Nodup := by
  induction cm with
  | nil => simp [dictInsert, dictKeys]
  | cons hd rest ih =>
    obtain ⟨c0, dv, pv⟩ := hd
    rw [dictKeys, List.map_cons, List.nodup_cons] at h
    obtain ⟨h0, h1⟩ := h
    by_cases hc : c0 = c
    · subst hc
      by_cases hlt : d < dv <;>
        · simp only [dictInsert, if_pos rfl, hlt, if_true, if_false, dictKeys,
            List.map_cons, List.nodup_cons]
          exact ⟨h0, h1⟩
    · simp only [dictInsert, if_neg hc, dictKeys, List.map_cons, List.nodup_cons]
      constructor
      · intro hmem
        rcases (mem_dictKeys_dictInsert rest c c0 d pj).mp hmem with hin | heq
        · exact h0 hin
        · exact hc heq
      · exact ih h1

theorem nodup_innerFold (hits : List (ℚ × ℕ)) (pj : ℕ) :
    ∀ cm, (dictKeys cm).Nodup →
      (dictKeys (hits.foldl
        (fun cm2 dc => dictInsert cm2 dc.2 dc.1 pj) cm)).Nodup := by
  induction hits with
  | nil => intro cm h; exact h
  | cons x rest ih =>
    intro cm h
    rw [List.foldl_cons]
    exact ih _ (nodup_dictKeys_dictInsert _ _ _ _ h)

theorem nodup_findNearbyEnum (crashes : List Pt) (r2 : ℚ) (k : ℕ)
    (epath : List (ℕ × Pt)) :
    (dictKeys (findNearbyEnum crashes r2 k epath)).Nodup := by
  have key : ∀ cm, (dictKeys cm).Nodup →
      (dictKeys (epath.foldl (fun cm ip =>
        (nearestK crashes ip.2 k r2).foldl
          (fun cm2 dc => dictInsert cm2 dc.2 dc.1 ip.1) cm) cm)).Nodup := by
    induction epath with
    | nil => intro cm h; exact h
    | cons ip rest ih =>
      intro cm h
      rw [List.foldl_cons]
      exact ih _ (nodup_innerFold _ _ _ h)
  exact key [] (by simp [dictKeys])

theorem fst_le_of_mem_enumFrom {α : Type} (l : List α) :
    ∀ (n : ℕ) (a : ℕ × α), a ∈ List.enumFrom n l → n ≤ a.1 := by
  induction l with
  | nil => intro n a ha; simp at ha
  | cons x rest ih =>
    intro n a ha
    rw [List.enumFrom_cons, List.mem_cons] at ha
    rcases ha with rfl | ha
    · exact le_rfl
    · exact le_trans (by omega) (ih (n + 1) a ha)

theorem pairwise_fst_enumFrom {α : Type} (l : List α) :
    ∀ n, (List.enumFrom n l).Pairwise fun a b => a.1 < b.1 := by
  induction l with
  | nil => intro n; simp
  | cons x rest ih =>
    intro n
    rw [List.enumFrom_cons, List.pairwise_cons]
    refine ⟨?_, ih (n + 1)⟩
    intro a ha
    have := fst_le_of_mem_enumFrom rest (n + 1) a ha
    omega

theorem pairwise_snd_withinHits (c : Pt) (r2 : ℚ) (path : List Pt) :
    (withinHits c r2 path.enum).Pairwise fun a b => a.2 < b.2 := by
  unfold withinHits
  rw [List.pairwise_filterMap]
  have henum : path.enum = List.enumFrom 0 path := rfl
  rw [henum]
  refine (pairwise_fst_enumFrom path 0).imp ?_
  intro a b hab x hx y hy
  have hxa : x.2 = a.1 := by
    by_cases h : dist2 a.2 c ≤ r2
    · rw [if_pos h] at hx
      simp only [Option.mem_def, Option.some_inj] at hx
      subst hx
      rfl
    · rw [if_neg h] at hx
      exact absurd hx (by simp)
  have hyb : y.2 = b.1 := by
    by_cases h : dist2 b.2 c ≤ r2
    · rw [if_pos h] at hy
      simp only [Option.mem_def, Option.some_inj] at hy
      subst hy
      rfl
    · rw [if_neg h] at hy
      exact absurd hy (by simp)
  rw [hxa, hyb]
  exact hab

/-! ### Claim C3 -/

/-- Eleven crash sites: ten on the x-axis at 1..10 m from the origin and an
eleventh at (0, 11), 11 m from the origin. -/
def crashes11 : List Pt :=
  [(1, 0), (2, 0), (3, 0), (4, 0), (5, 0), (6, 0), (7, 0), (8, 0), (9, 0),
   (10, 0), (0, 11)]

/-- A two-sample trajectory: the origin, then (0, 50). -/
def path2 : List Pt := [(0, 0), (0, 50)]

/-- C3: the claim that the recorded distance always equals the true minimum
distance over samples within the match radius is false.  Crash 10 sits 11 m
(squared 121) from sample 0, well within the 100 m radius (squared 10000),
but ten other crashes are closer to sample 0, so the k = 10 query at sample
0 omits crash 10; the emitted candidate for crash 10 records squared
distance 1521 (39 m, from sample 1) instead of the true minimum 121. -/
theorem C3_counterexample :
    dictLookup (findNearbyCrashes crashes11 10000 10 path2) 10 =
      some (1521, 1) ∧
    dist2 ((0 : ℚ), (0 : ℚ)) (crashes11.getD 10 (0, 0)) = 121 ∧
    ((121 : ℚ) ≤ 10000 ∧ (121 : ℚ) < 1521) := by
  refine ⟨?_, by norm_num [crashes11, dist2], by norm_num⟩
  norm_num [findNearbyCrashes, findNearbyEnum, nearestK, withinRadius, dist2,
    le2, dictInsert, dictLookup, List.insertionSort, List.orderedInsert,
    crashes11, path2, List.enumFrom, List.enum_cons, List.enum_nil]

/-- C3 (amended): the Proximity Matcher emits at most one candidate per
(trajectory, crash) pair; provided no sample has more than k = 10 crashes
within the match radius (so the k-nearest query misses nothing), the
recorded squared distance for a crash equals the true minimum squared
distance over the samples within the radius, with ties between
equal-distance samples resolved to the smaller (earlier) sample index; a
crash gets no candidate exactly when no sample is within the radius; and
the recorded distance (though not the tying sample index) is unchanged
under any reordering of the enumerated samples. -/
theorem C3_amended (crashes : List Pt) (r2 : ℚ) (k : ℕ) (path : List Pt)
    (ci : ℕ) (hci : ci < crashes.length)
    (hk : ∀ ip ∈ path.enum, (withinRadius crashes ip.2 r2).length ≤ k) :
    (dictKeys (findNearbyCrashes crashes r2 k path)).Nodup ∧
    (∀ dz pj,
      dictLookup (findNearbyCrashes crashes r2 k path) ci = some (dz, pj) →
      (dz, pj) ∈ withinHits (crashes.getD ci (0, 0)) r2 path.enum ∧
      ∀ x ∈ withinHits (crashes.getD ci (0, 0)) r2 path.enum,
        dz < x.1 ∨ (dz = x.1 ∧ pj ≤ x.2)) ∧
    (dictLookup (findNearbyCrashes crashes r2 k path) ci = none ↔
      withinHits (crashes.getD ci (0, 0)) r2 path.enum = []) ∧
    (∀ epath2, path.enum.Perm epath2 →
      (dictLookup (findNearbyEnum crashes r2 k epath2) ci).map Prod.fst =
        (dictLookup (findNearbyCrashes crashes r2 k path) ci).map Prod.fst) := by
  have hw : allHits crashes r2 k ci path.enum =
      withinHits (crashes.getD ci (0, 0)) r2 path.enum :=
    allHits_eq_withinHits crashes r2 k ci path.enum hci hk
  have hlook : dictLookup (findNearbyCrashes crashes r2 k path) ci =
      bestOf (allHits crashes r2 k ci path.enum) none :=
    findNearbyEnum_lookup crashes r2 k ci path.enum
  refine ⟨nodup_findNearbyEnum crashes r2 k path.enum, ?_, ?_, ?_⟩
  · intro dz pj h
    rw [hlook, hw] at h
    have := bestOf_none_tie _ _ (pairwise_snd_withinHits _ _ _) h
    simpa using this
  · rw [hlook, hw, bestOf_none_iff]
  · intro epath2 hp
    rw [hlook]
    have h2 : dictLookup (findNearbyEnum crashes r2 k epath2) ci =
        bestOf (allHits crashes r2 k ci epath2) none :=
      findNearbyEnum_lookup crashes r2 k ci epath2
    rw [h2]
    exact bestOf_fst_perm (hp.flatMap_right _).symm

theorem C3_amended_witness :
    0 < ([((0 : ℚ), (0 : ℚ))] : List Pt).length ∧
    (∀ ip ∈ ([((0 : ℚ), (3 : ℚ))] : List Pt).enum,
      (withinRadius [((0 : ℚ), (0 : ℚ))] ip.2 10000).length ≤ 10) ∧
    (dictKeys (findNearbyCrashes [((0 : ℚ), (0 : ℚ))] 10000 10
      [((0 : ℚ), (3 : ℚ))])).Nodup := by
  have h1 : 0 < ([((0 : ℚ), (0 : ℚ))] : List Pt).length := by norm_num
  have h2 : ∀ ip ∈ ([((0 : ℚ), (3 : ℚ))] : List Pt).enum,
      (withinRadius [((0 : ℚ), (0 : ℚ))] ip.2 10000).length ≤ 10 := by
    intro ip _
    have hb : (withinRadius [((0 : ℚ), (0 : ℚ))] ip.2 10000).length ≤ 1 := by
      unfold withinRadius
      calc ((([((0 : ℚ), (0 : ℚ))] : List Pt).enum.map
            fun ic => (dist2 ip.2 ic.2, ic.1)).filter
              fun dc => dc.1 ≤ 10000).length ≤
          ((([((0 : ℚ), (0 : ℚ))] : List Pt).enum.map
            fun ic => (dist2 ip.2 ic.2, ic.1))).length :=
            List.length_filter_le _ _
        _ = 1 := by simp
    omega
  exact ⟨h1, h2,
    (C3_amended [((0 : ℚ), (0 : ℚ))] 10000 10 [((0 : ℚ), (3 : ℚ))] 0 h1 h2).1⟩

/-! ## Crash Identity Reconciler
(archive/versions/temporal_spatial_matcher_v2.py) -/

/-- A spatial-match row entering reconciliation: its distance_to_crash, the
old-catalog crash coordinates (crash_x, crash_y) and the parse result of
closest_timestamp. -/
structure CandRow where
  distance_to_crash : ℚ
  crash_pt : Pt
  closest_timestamp : Option ℚ
  deriving DecidableEq, Repr

/-- An authoritative (NZTA) crash: projected position and parsed datetime. -/
structure NztaCrash where
  pt : Pt
  dt : Option ℚ
  deriving DecidableEq, Repr

/-- Modelled from the spec: `crash_tree.query([x, y], k=1)` over the
authoritative catalog is external library code; per the spec (section 4.4)
nearest_one returns the closest crash, resolving ties by first-seen order,
and nothing on an empty catalog. -/
def nearestOne (cs : List Pt) (p : Pt) : Option (ℕ × ℚ) :=
  (cs.enum.map fun ic => (ic.1, dist2 p ic.2)).foldl
    (fun acc x => match acc with
      | none => some x
      | some y => if x.2 < y.2 then some x else some y) none

/-- A reconciled row: the source row plus the matched authoritative crash
index, its datetime, and the squared coordinate-match distance. -/
structure ReconRow where
  src : CandRow
  nzta_idx : ℕ
  nzta_dt : Option ℚ
  coord_d2 : ℚ
  deriving DecidableEq, Repr

/-- One iteration of the v2 reconciliation loop (lines 90-121): rows with
distance_to_crash > 25 are skipped silently; otherwise the nearest
authoritative crash is queried and the row is either appended to the
matched list (coordinate distance strictly below 50 m, squared 2500) or
counted in no_coord_match. -/
def reconcileStep (ncs : List NztaCrash) (st : List ReconRow × ℕ)
    (row : CandRow) : List ReconRow × ℕ :=
  if 25 < row.distance_to_crash then st
  else
    match nearestOne (ncs.map fun c => c.pt) row.crash_pt with
    | none => (st.1, st.2 + 1)
    | some (i, d2) =>
      if d2 < 2500 then
        (st.1 ++ [{ src := row, nzta_idx := i,
                    nzta_dt := match ncs[i]? with
                               | none => none
                               | some c => c.dt,
                    coord_d2 := d2 }], st.2)
      else (st.1, st.2 + 1)

/-- The v2 coordinate-reconciliation pass: matched rows in order, and the
no_coord_match tally. -/
def reconcile (ncs : List NztaCrash) (rows : List CandRow) :
    List ReconRow × ℕ :=
  rows.foldl (reconcileStep ncs) ([], 0)

/-- Retention test of the v2 temporal filter (lines 139-151): kept iff the
authoritative datetime and the vehicle timestamp are both present and the
absolute delta in minutes is at most the window.  (Retained rows are then
scored exactly as in temporal_match: spatialScore, temporalScore,
combinedScore.) -/
def v2Retained (w : ℚ) (m : ReconRow) : Bool :=
  match m.nzta_dt, m.src.closest_timestamp with
  | some ct, some vt => decide (ratAbs (ct - vt) ≤ w)
  | _, _ => false

/-- One windowed result set of the v2 temporal filter. -/
def v2Window (matched : List ReconRow) (w : ℚ) : List ReconRow :=
  matched.filter (v2Retained w)

theorem foldl_nearest_ge (r : ℚ) :
    ∀ (l : List (ℕ × ℚ)) (acc : Option (ℕ × ℚ)),
      (∀ x ∈ l, r ≤ x.2) →
      (acc = none ∨ ∃ y, acc = some y ∧ r ≤ y.2) →
      (l.foldl (fun acc x => match acc with
          | none => some x
          | some y => if x.2 < y.2 then some x else some y) acc = none ∨
        ∃ y, l.foldl (fun acc x => match acc with
          | none => some x
          | some y => if x.2 < y.2 then some x else some y) acc = some y ∧
            r ≤ y.2) := by
  intro l
  induction l with
  | nil => intro acc _ hacc; exact hacc
  | cons x rest ih =>
    intro acc hall hacc
    rw [List.foldl_cons]
    apply ih
    · intro a ha
      exact hall a (List.mem_cons_of_mem _ ha)
    · rcases hacc with rfl | ⟨y, rfl, hy⟩
      · exact Or.inr ⟨x, rfl, hall x (by simp)⟩
      · by_cases hlt : x.2 < y.2
        · refine Or.inr ⟨x, ?_, hall x (by simp)⟩
          simp [hlt]
        · refine Or.inr ⟨y, ?_, hy⟩
          simp [hlt]

theorem nearestOne_ge (cs : List Pt) (p : Pt) (r : ℚ)
    (h : ∀ c ∈ cs, r ≤ dist2 p c) :
    nearestOne cs p = none ∨
      ∃ y, nearestOne cs p = some y ∧ r ≤ y.2 := by
  have hall : ∀ x ∈ cs.enum.map fun ic => (ic.1, dist2 p ic.2), r ≤ x.2 := by
    intro x hx
    rcases List.mem_map.mp hx with ⟨ic, hic, rfl⟩
    rcases ic with ⟨i, c⟩
    have hmem : c ∈ cs := by
      have hdec := List.mem_enumFrom (by exact hic)
      rcases hdec with ⟨_, hlt, hc⟩
      rw [hc]
      exact List.getElem_mem _
    exact h c hmem
  exact foldl_nearest_ge r _ none hall (Or.inl rfl)

/-! ### Claim C9 -/

/-- C9: the claim that every candidate with no authoritative crash within
the 50 m tolerance is tallied in the no-coordinate-match count is false: a
candidate with distance_to_crash = 30 (over the 25 m pre-filter) whose
crash coordinate is 100 m (squared 10000) from the only authoritative
crash is dropped before reconciliation — it appears in no windowed result
set, but the no_coord_match tally stays 0. -/
theorem C9_counterexample :
    reconcile [{ pt := (100, 0), dt := some 0 }]
      [{ distance_to_crash := 30, crash_pt := (0, 0),
         closest_timestamp := some 0 }] = ([], 0) ∧
    dist2 ((0 : ℚ), (0 : ℚ)) ((100 : ℚ), (0 : ℚ)) = 10000 ∧
    ¬ ((10000 : ℚ) < 2500) := by
  refine ⟨?_, by norm_num [dist2], by norm_num⟩
  norm_num [reconcile, reconcileStep]

/-- C9 (amended): among candidates that survive the 25 m pre-filter
(distance_to_crash at most 25), every one whose crash coordinate has no
authoritative crash strictly within the 50 m tolerance is dropped from
temporal scoring — the matched list, and hence every windowed result set,
is unchanged — and is tallied in no_coord_match; candidates with
distance_to_crash over 25 are skipped silently beforehand, with no tally. -/
theorem C9_amended (ncs : List NztaCrash) (row : CandRow) :
    (row.distance_to_crash ≤ 25 →
      (∀ c ∈ ncs, 2500 ≤ dist2 row.crash_pt c.pt) →
      ∀ st : List ReconRow × ℕ,
        reconcileStep ncs st row = (st.1, st.2 + 1) ∧
        ∀ w : ℚ, v2Window (reconcileStep ncs st row).1 w = v2Window st.1 w) ∧
    (25 < row.distance_to_crash →
      ∀ st : List ReconRow × ℕ, reconcileStep ncs st row = st) := by
  constructor
  · intro h25 hfar st
    have hstep : reconcileStep ncs st row = (st.1, st.2 + 1) := by
      unfold reconcileStep
      rw [if_neg (not_lt.mpr h25)]
      have hge := nearestOne_ge (ncs.map fun c => c.pt) row.crash_pt 2500
        (by
          intro c hc
          rcases List.mem_map.mp hc with ⟨nc, hnc, rfl⟩
          exact hfar nc hnc)
      rcases hge with hnone | ⟨y, hsome, hy⟩
      · rw [hnone]
      · rw [hsome]
        rcases y with ⟨i, d2⟩
        simp only []
        rw [if_neg (not_lt.mpr hy)]
    refine ⟨hstep, ?_⟩
    intro w
    rw [hstep]
  · intro h25 st
    unfold reconcileStep
    rw [if_pos h25]

theorem C9_amended_witness :
    ((30 : ℚ) ≤ 25 → False) ∧
    ((25 : ℚ) < 30) ∧
    reconcileStep [{ pt := (100, 0), dt := some 0 }] ([], 0)
      { distance_to_crash := 30, crash_pt := (0, 0),
        closest_timestamp := some 0 } = ([], 0) ∧
    reconcileStep [{ pt := (100, 0), dt := some 0 }] ([], 0)
      { distance_to_crash := 20, crash_pt := (0, 0),
        closest_timestamp := some 0 } = ([], 1) := by
  have h30 : (25 : ℚ) < 30 := by norm_num
  have hfar : ∀ c ∈ [({ pt := (100, 0), dt := some 0 } : NztaCrash)],
      2500 ≤ dist2 ((0 : ℚ), (0 : ℚ)) c.pt := by
    intro c hc
    rcases List.mem_singleton.mp hc with rfl
    norm_num [dist2]
  refine ⟨by norm_num, h30, ?_, ?_⟩
  · exact (C9_amended [{ pt := (100, 0), dt := some 0 }]
      { distance_to_crash := 30, crash_pt := (0, 0),
        closest_timestamp := some 0 }).2 h30 ([], 0)
  · have h := ((C9_amended [{ pt := (100, 0), dt := some 0 }]
      { distance_to_crash := 20, crash_pt := (0, 0),
        closest_timestamp := some 0 }).1 (by norm_num) hfar ([], 0)).1
    simpa using h

/-! ## Involvement Classifier
(identify_crash_involved_not_witness.py and identify_crash_participants.py) -/

/-- A raw entry of the SpeedPath column: empty or the literal string null,
a nonempty string float() rejects, or a parsed number. -/
inductive SpeedEntry
  | missing
  | bad
  | val (q : ℚ)
  deriving DecidableEq, Repr

/-- The numeric value an entry contributes inside the post-crash loop
(identify_crash_involved_not_witness.py lines 130-133): empty, null,
unparsable and out-of-range all become 0. -/
def entryVal : SpeedEntry → ℚ
  | SpeedEntry.missing => 0
  | SpeedEntry.bad => 0
  | SpeedEntry.val q => q

/-- Whether an entry is an actually parsed number. -/
def isPresent : SpeedEntry → Bool
  | SpeedEntry.val _ => true
  | _ => false

/-- speed_val for sample i of the post-crash loop. -/
def speedVal (speeds : List SpeedEntry) (i : ℕ) : ℚ :=
  entryVal (speeds.getD i SpeedEntry.missing)

/-- A trip as the classifier reads it: parse results of TimestampPath
(minutes), the projected valid RawPath points, the SpeedPath entries, and
the parse results of XAccPath. -/
structure Trip where
  timestamps : List (Option ℚ)
  coords : List Pt
  speeds : List SpeedEntry
  xaccel : List (Option ℚ)
  deriving DecidableEq, Repr

/-- One confirmed match as the classifier reads it: the parse result of
crash_datetime, closest_point_idx, and the projected crash coordinates. -/
structure MatchRec where
  crash_datetime : Option ℚ
  closest_point_idx : ℕ
  crash_pt : Pt
  deriving DecidableEq, Repr

/-- One collected post-crash point (lines 135-139): minutes after the
crash, squared distance from the crash, and the defaulted speed. -/
structure PostPoint where
  time_after : ℚ
  d2 : ℚ
  speed : ℚ
  deriving DecidableEq, Repr

/-- points_after_crash (lines 118-139): samples from closest_point_idx
through at most 19 more, kept when the timestamp parses and is at or after
the crash time and the coordinate index is in range. -/
def pointsAfterCrash (t : Trip) (ct : ℚ) (cpi : ℕ) (cp : Pt) :
    List PostPoint :=
  (List.range' cpi (min (cpi + 20) t.timestamps.length - cpi)).filterMap
    fun i =>
      match t.timestamps.getD i none with
      | none => none
      | some ts =>
        if ct ≤ ts then
          if i < t.coords.length then
            some { time_after := ts - ct,
                   d2 := dist2 (t.coords.getD i (0, 0)) cp,
                   speed := speedVal t.speeds i }
          else none
        else none

/-- The post-crash points within the 50 m scene radius (squared 2500). -/
def scenePoints (pts : List PostPoint) : List PostPoint :=
  pts.filter fun p => p.d2 < 2500

/-- num_points_at_scene (line 151). -/
def numPointsAtScene (pts : List PostPoint) : ℕ := (scenePoints pts).length

/-- time_at_scene (line 152): the largest time_after among in-scene points,
0 when none. -/
def timeAtScene (pts : List PostPoint) : ℚ :=
  match (scenePoints pts).map fun p => p.time_after with
  | [] => 0
  | a :: rest => rest.foldl max a

/-- avg_speed_at_scene (line 153): the in-scene speed sum over
max(num_points_at_scene, 1). -/
def avgSpeedAtScene (pts : List PostPoint) : ℚ :=
  ((scenePoints pts).map fun p => p.speed).sum /
    ((max (numPointsAtScene pts) 1 : ℕ) : ℚ)

/-- stayed_at_scene (line 155): at least 3 in-scene points and in-scene
average speed below 10. -/
def stayedAtScene (pts : List PostPoint) : Bool :=
  decide (3 ≤ numPointsAtScene pts) && decide (avgSpeedAtScene pts < 10)

/-- sudden_decel (lines 159-168): needs 0 < idx < len(speeds); empty and
null entries count as 0, but an entry float() rejects aborts the check
(except: pass), leaving False; triggered by a drop above 20. -/
def suddenDecel (speeds : List SpeedEntry) (cpi : ℕ) : Bool :=
  if 0 < cpi ∧ cpi < speeds.length then
    match speeds.getD (cpi - 1) SpeedEntry.missing,
          speeds.getD cpi SpeedEntry.missing with
    | SpeedEntry.bad, _ => false
    | _, SpeedEntry.bad => false
    | sb, sa => decide (20 < entryVal sb - entryVal sa)
  else false

/-- strong_decel_accel (lines 171-178): the x-acceleration at the matched
index, when present and parsed, with magnitude above 5. -/
def strongAccel (xa : List (Option ℚ)) (cpi : ℕ) : Bool :=
  if cpi < xa.length then
    match xa.getD cpi none with
    | none => false
    | some v => decide (5 < ratAbs v)
  else false

/-- The roles appearing across the two classifier scripts. -/
inductive Role
  | INVOLVED
  | WITNESS
  | EMERGENCY_RESPONDER
  | CRASH_PARTICIPANT
  | UNKNOWN
  deriving DecidableEq, Repr

/-- The record built for one analyzed match (lines 183-193). -/
structure Analyzed where
  stayed_at_scene : Bool
  num_points_at_scene : ℕ
  time_at_scene : ℚ
  avg_speed_at_scene : ℚ
  sudden_deceleration : Bool
  strong_accel : Bool
  involvement_indicators : ℕ
  likely_role : Role
  deriving DecidableEq, Repr

/-- Python's bool-to-int coercion used by the indicator sum (line 181). -/
def bnat (b : Bool) : ℕ := if b then 1 else 0

/-- The analysis of one (trip, match) pair (lines 108-198): nothing is
emitted when the crash datetime is unparsable or no qualifying post-crash
point exists; otherwise the indicators are computed and the role is
INVOLVED at two or more indicators, else WITNESS. -/
def analyzeMatch (t : Trip) (m : MatchRec) : Option Analyzed :=
  match m.crash_datetime with
  | none => none
  | some ct =>
    let pts := pointsAfterCrash t ct m.closest_point_idx m.crash_pt
    if pts.isEmpty then none
    else
      let stayed := stayedAtScene pts
      let sd := suddenDecel t.speeds m.closest_point_idx
      let sa := strongAccel t.xaccel m.closest_point_idx
      let k := bnat stayed + bnat sd + bnat sa
      some { stayed_at_scene := stayed
             num_points_at_scene := numPointsAtScene pts
             time_at_scene := timeAtScene pts
             avg_speed_at_scene := avgSpeedAtScene pts
             sudden_deceleration := sd
             strong_accel := sa
             involvement_indicators := k
             likely_role := if 2 ≤ k then Role.INVOLVED else Role.WITNESS }

/-- The first classifier pass over its matches: the crash_INVOLVED and
crash_WITNESSES outputs (lines 195-198 and 226-239).  Matches on which
analyzeMatch emits nothing appear in neither. -/
def phaseA (inputs : List (Trip × MatchRec)) :
    List Analyzed × List Analyzed :=
  let rs := inputs.filterMap fun tm => analyzeMatch tm.1 tm.2
  (rs.filter fun a => decide (2 ≤ a.involvement_indicators),
   rs.filter fun a => ! decide (2 ≤ a.involvement_indicators))

/-- Trip origin and destination in projected coordinates, absent when the
first or last RawPath point is malformed
(identify_crash_participants.py lines 56-70). -/
structure TripLoc where
  origin : Option Pt
  dest : Option Pt
  deriving DecidableEq, Repr

/-- distance_to_nearest_hospital, squared (lines 101-116); the projection
of the coordinates is external (pyproj), so points arrive projected.  An
absent coordinate gives none; so does an empty hospital list, whose
min_dist stays infinite and fails every comparison. -/
def minHospD2 (hosp : List Pt) : Option Pt → Option ℚ
  | none => none
  | some p =>
    match hosp.map fun hp => dist2 p hp with
    | [] => none
    | d :: rest => some (rest.foldl min d)

/-- The emergency criteria of the participants pass (lines 144-165): trip
origin or destination strictly within 500 m (squared 250000) of a
hospital, or stayed_at_scene together with a parsed trip maximum speed
above 80. -/
def emergencyCriterion (hosp : List Pt) (a : Analyzed) (maxSpeed : Option ℚ)
    (loc : TripLoc) : Bool :=
  (match minHospD2 hosp loc.origin with
   | none => false
   | some d => decide (d < 250000)) ||
  (match minHospD2 hosp loc.dest with
   | none => false
   | some d => decide (d < 250000)) ||
  (a.stayed_at_scene &&
    match maxSpeed with
    | none => false
    | some s => decide (80 < s))

/-- Classification of one candidate of the participants pass (lines
124-177): a candidate whose trip cannot be found goes to the unknown
tally; otherwise EMERGENCY_RESPONDER when any emergency criterion holds,
else CRASH_PARTICIPANT. -/
def classifyCandidate (hosp : List Pt) (a : Analyzed)
    (maxSpeed : Option ℚ) : Option TripLoc → Role
  | none => Role.UNKNOWN
  | some loc =>
    if emergencyCriterion hosp a maxSpeed loc then Role.EMERGENCY_RESPONDER
    else Role.CRASH_PARTICIPANT

/-- The end-to-end role the two scripts assign to one scored match:
INVOLVED matches go to crash_INVOLVED_vehicles.csv and never reach the
participants pass, which reads crash_WITNESSES.csv and examines only
candidates with sudden_deceleration or stayed_at_scene; the remaining
witnesses keep WITNESS. -/
def pipelineRole (hosp : List Pt) (t : Trip) (m : MatchRec)
    (maxSpeed : Option ℚ) (loc : Option TripLoc) : Option Role :=
  match analyzeMatch t m with
  | none => none
  | some a =>
    if a.likely_role = Role.INVOLVED then some Role.INVOLVED
    else if a.sudden_deceleration || a.stayed_at_scene then
      some (classifyCandidate hosp a maxSpeed loc)
    else some Role.WITNESS

/-! ### Claim C4 -/

/-- A trip that decelerates from 30 to 5 at the matched index and stays at
the crash site: both sudden_deceleration and stayed_at_scene hold. -/
def tC4 : Trip :=
  { timestamps := [some 0, some 0, some 1, some 2, some 3]
    coords := [(0, 0), (0, 0), (0, 0), (0, 0), (0, 0)]
    speeds := [SpeedEntry.val 30, SpeedEntry.val 5, SpeedEntry.val 5,
               SpeedEntry.val 5, SpeedEntry.val 5]
    xaccel := [none, none, none, none, none] }

/-- The match of tC4: crash at the origin at time 0, matched at sample 1. -/
def mC4 : MatchRec :=
  { crash_datetime := some 0, closest_point_idx := 1, crash_pt := (0, 0) }

/-- A trip record whose origin is exactly at the hospital. -/
def locC4 : TripLoc := { origin := some (0, 0), dest := some (0, 300) }

/-- The analysis record the first pass produces for (tC4, mC4). -/
def aC4 : Analyzed :=
  { stayed_at_scene := true, num_points_at_scene := 4, time_at_scene := 3,
    avg_speed_at_scene := 5, sudden_deceleration := true,
    strong_accel := false, involvement_indicators := 2,
    likely_role := Role.INVOLVED }

/-- C4: the claim that every match satisfying an emergency criterion gets
role EMERGENCY_RESPONDER, including matches that would otherwise be
INVOLVED, is false: (tC4, mC4) triggers two indicators and is INVOLVED,
its trip origin lies at a known hospital (criterion satisfied), yet the
pipeline role is INVOLVED — the participants pass reads only the
witnesses file and never reclassifies INVOLVED matches. -/
theorem C4_counterexample :
    analyzeMatch tC4 mC4 = some aC4 ∧
    emergencyCriterion [((0 : ℚ), (0 : ℚ))] aC4 (some 30) locC4 = true ∧
    pipelineRole [((0 : ℚ), (0 : ℚ))] tC4 mC4 (some 30) (some locC4) =
      some Role.INVOLVED ∧
    Role.INVOLVED ≠ Role.EMERGENCY_RESPONDER := by
  have ha : analyzeMatch tC4 mC4 = some aC4 := by
    norm_num [analyzeMatch, tC4, mC4, aC4, pointsAfterCrash, List.range',
      dist2, speedVal, entryVal, stayedAtScene, numPointsAtScene,
      scenePoints, avgSpeedAtScene, timeAtScene, suddenDecel, strongAccel,
      bnat, ratAbs, List.filterMap_cons, List.getD, List.filter_cons,
      List.foldl_cons]
  refine ⟨ha, ?_, ?_, by simp⟩
  · norm_num [emergencyCriterion, minHospD2, locC4, aC4, dist2]
  · rw [pipelineRole, ha]
    simp [aC4]

/-- C4 (amended): emergency reclassification operates only on the
candidates the participants pass examines — matches classified WITNESS
that have at least one of sudden_deceleration or stayed_at_scene and whose
trip data is found; among those, a satisfied emergency criterion yields
EMERGENCY_RESPONDER regardless of which indicators triggered it; matches
classified INVOLVED are never examined and keep role INVOLVED even when
they satisfy an emergency criterion. -/
theorem C4_amended (hosp : List Pt) (t : Trip) (m : MatchRec)
    (maxSpeed : Option ℚ) (a : Analyzed) (ha : analyzeMatch t m = some a) :
    (a.likely_role = Role.INVOLVED →
      ∀ loc, pipelineRole hosp t m maxSpeed loc = some Role.INVOLVED) ∧
    (a.likely_role ≠ Role.INVOLVED →
      (a.sudden_deceleration || a.stayed_at_scene) = true →
      ∀ l, emergencyCriterion hosp a maxSpeed l = true →
        pipelineRole hosp t m maxSpeed (some l) =
          some Role.EMERGENCY_RESPONDER) := by
  constructor
  · intro hrole loc
    unfold pipelineRole
    rw [ha]
    simp [hrole]
  · intro hrole hind l hcrit
    unfold pipelineRole
    rw [ha]
    simp [hrole, hind, classifyCandidate, hcrit]

/-- The same trip as tC4 but without the sharp speed drop, so only one
indicator (stayed_at_scene) triggers and the first pass says WITNESS. -/
def tC4w : Trip :=
  { timestamps := [some 0, some 0, some 1, some 2, some 3]
    coords := [(0, 0), (0, 0), (0, 0), (0, 0), (0, 0)]
    speeds := [SpeedEntry.val 10, SpeedEntry.val 5, SpeedEntry.val 5,
               SpeedEntry.val 5, SpeedEntry.val 5]
    xaccel := [none, none, none, none, none] }

/-- The analysis record of (tC4w, mC4). -/
def aC4w : Analyzed :=
  { stayed_at_scene := true, num_points_at_scene := 4, time_at_scene := 3,
    avg_speed_at_scene := 5, sudden_deceleration := false,
    strong_accel := false, involvement_indicators := 1,
    likely_role := Role.WITNESS }

theorem C4_amended_witness :
    analyzeMatch tC4 mC4 = some aC4 ∧
    pipelineRole [((0 : ℚ), (0 : ℚ))] tC4 mC4 (some 30) (some locC4) =
      some Role.INVOLVED ∧
    analyzeMatch tC4w mC4 = some aC4w ∧
    emergencyCriterion [((0 : ℚ), (0 : ℚ))] aC4w (some 30) locC4 = true ∧
    pipelineRole [((0 : ℚ), (0 : ℚ))] tC4w mC4 (some 30) (some locC4) =
      some Role.EMERGENCY_RESPONDER := by
  have ha : analyzeMatch tC4 mC4 = some aC4 := by
    norm_num [analyzeMatch, tC4, mC4, aC4, pointsAfterCrash, List.range',
      dist2, speedVal, entryVal, stayedAtScene, numPointsAtScene,
      scenePoints, avgSpeedAtScene, timeAtScene, suddenDecel, strongAccel,
      bnat, ratAbs, List.filterMap_cons, List.getD, List.filter_cons,
      List.foldl_cons]
  have haw : analyzeMatch tC4w mC4 = some aC4w := by
    norm_num [analyzeMatch, tC4w, mC4, aC4w, pointsAfterCrash, List.range',
      dist2, speedVal, entryVal, stayedAtScene, numPointsAtScene,
      scenePoints, avgSpeedAtScene, timeAtScene, suddenDecel, strongAccel,
      bnat, ratAbs, List.filterMap_cons, List.getD, List.filter_cons,
      List.foldl_cons]
  have hcrit : emergencyCriterion [((0 : ℚ), (0 : ℚ))] aC4w (some 30) locC4 =
      true := by
    norm_num [emergencyCriterion, minHospD2, locC4, aC4w, dist2]
  refine ⟨ha, ?_, haw, hcrit, ?_⟩
  · exact (C4_amended [((0 : ℚ), (0 : ℚ))] tC4 mC4 (some 30) aC4 ha).1
      (by norm_num [aC4]) (some locC4)
  · exact (C4_amended [((0 : ℚ), (0 : ℚ))] tC4w mC4 (some 30) aC4w haw).2
      (by decide) (by decide) locC4 hcrit

/-! ### Claim C5 -/

/-- A trip whose only timestamp is unparsable: no qualifying post-crash
point can be collected. -/
def tC5 : Trip :=
  { timestamps := [none], coords := [(0, 0)],
    speeds := [SpeedEntry.val 0], xaccel := [none] }

/-- The match of tC5. -/
def mC5 : MatchRec :=
  { crash_datetime := some 0, closest_point_idx := 0, crash_pt := (0, 0) }

/-- C5: the claim that matches with missing post-crash data get role
UNKNOWN and are surfaced in the output is false: with every post-crash
timestamp unparsable, points_after_crash is empty and the classifier hits
`continue` — the match is dropped, appearing in neither the INVOLVED nor
the WITNESS output, and no UNKNOWN record exists for it anywhere. -/
theorem C5_counterexample :
    pointsAfterCrash tC5 0 0 ((0 : ℚ), (0 : ℚ)) = [] ∧
    analyzeMatch tC5 mC5 = none ∧
    phaseA [(tC5, mC5)] = ([], []) ∧
    pipelineRole [((0 : ℚ), (0 : ℚ))] tC5 mC5 none none = none := by
  have hpts : pointsAfterCrash tC5 0 0 ((0 : ℚ), (0 : ℚ)) = [] := by
    norm_num [pointsAfterCrash, tC5, List.range', List.filterMap_cons,
      List.getD]
  have ha : analyzeMatch tC5 mC5 = none := by
    unfold analyzeMatch
    simp only [mC5]
    simp [hpts]
    exact hpts
  refine ⟨hpts, ha, ?_, ?_⟩
  · unfold phaseA
    rw [List.filterMap_cons]
    simp [ha]
  · unfold pipelineRole
    rw [ha]

/-- C5 (amended): a scored match whose crash datetime is unparsable or for
which no qualifying post-crash sample exists is silently dropped — the
classifier emits no record for it, with any role, so it reaches neither
the INVOLVED nor the WITNESS output and the participants pass never sees
it.  The only UNKNOWN assignment in the pipeline is the participants
pass's tally of witness candidates whose trip data cannot be found, and
that tally is reported as a console count, not exported as records. -/
theorem C5_amended (t : Trip) (m : MatchRec) :
    (m.crash_datetime = none → analyzeMatch t m = none) ∧
    (∀ ct, m.crash_datetime = some ct →
      pointsAfterCrash t ct m.closest_point_idx m.crash_pt = [] →
      analyzeMatch t m = none) ∧
    (analyzeMatch t m = none →
      ∀ hosp maxSpeed loc, pipelineRole hosp t m maxSpeed loc = none) ∧
    (∀ hosp a maxSpeed,
      classifyCandidate hosp a maxSpeed none = Role.UNKNOWN) := by
  refine ⟨?_, ?_, ?_, ?_⟩
  · intro h
    unfold analyzeMatch
    rw [h]
  · intro ct h hpts
    unfold analyzeMatch
    rw [h]
    simp [hpts]
  · intro h hosp maxSpeed loc
    unfold pipelineRole
    rw [h]
  · intro hosp a maxSpeed
    rfl

theorem C5_amended_witness :
    mC5.crash_datetime = some 0 ∧
    pointsAfterCrash tC5 0 mC5.closest_point_idx mC5.crash_pt = [] ∧
    analyzeMatch tC5 mC5 = none := by
  have hdt : mC5.crash_datetime = some 0 := rfl
  have hpts : pointsAfterCrash tC5 0 mC5.closest_point_idx mC5.crash_pt = [] := by
    norm_num [pointsAfterCrash, tC5, mC5, List.range', List.filterMap_cons,
      List.getD]
  exact ⟨hdt, hpts, (C5_amended tC5 mC5).2.1 0 hdt hpts⟩

/-! ### Claim C10 -/

/-- Post-crash points built from raw (squared distance, speed entry)
pairs, keeping missing-speed samples with speed defaulted to 0 exactly as
the code's speed parsing does. -/
def toPost (l : List (ℚ × SpeedEntry)) : List PostPoint :=
  l.map fun e => { time_after := 0, d2 := e.1, speed := entryVal e.2 }

/-- Modelled from the claim's alternative reading: the same points with
the missing-speed samples excluded from the scene statistics instead of
defaulted to 0. -/
def exclPost (l : List (ℚ × SpeedEntry)) : List PostPoint :=
  (l.filter fun e => isPresent e.2).map
    fun e => { time_after := 0, d2 := e.1, speed := entryVal e.2 }

theorem scenePoints_toPost (l : List (ℚ × SpeedEntry)) :
    scenePoints (toPost l) =
      (l.filter fun e => decide (e.1 < 2500)).map
        fun e => { time_after := 0, d2 := e.1, speed := entryVal e.2 } := by
  unfold scenePoints toPost
  rw [List.filter_map]
  rfl

theorem scenePoints_exclPost (l : List (ℚ × SpeedEntry)) :
    scenePoints (exclPost l) =
      (l.filter fun e => decide (e.1 < 2500) && isPresent e.2).map
        fun e => { time_after := 0, d2 := e.1, speed := entryVal e.2 } := by
  unfold scenePoints exclPost
  rw [List.filter_map, List.filter_filter]
  rfl

theorem sum_entryVal_filter_present (s : List (ℚ × SpeedEntry)) :
    ((s.filter fun e => isPresent e.2).map fun e => entryVal e.2).sum =
      (s.map fun e => entryVal e.2).sum := by
  induction s with
  | nil => rfl
  | cons e rest ih =>
    rcases e with ⟨d, se⟩
    cases se with
    | missing =>
      rw [List.filter_cons_of_neg (by simp [isPresent]), List.map_cons,
        List.sum_cons, ih]
      simp [entryVal]
    | bad =>
      rw [List.filter_cons_of_neg (by simp [isPresent]), List.map_cons,
        List.sum_cons, ih]
      simp [entryVal]
    | val q =>
      rw [List.filter_cons_of_pos (by simp [isPresent]), List.map_cons,
        List.map_cons, List.sum_cons, List.sum_cons, ih]

/-- C10: in the stayed_at_scene computation, every post-crash in-scene
sample with an empty, null or unparsable speed contributes speed 0 to the
in-scene average instead of being excluded; compared with excluding those
samples, and assuming the parsed speeds are nonnegative, the defaulting can
only lower the in-scene average and can only make stayed_at_scene more
likely true. -/
theorem C10_missing_speed_default (speeds : List SpeedEntry) (i : ℕ)
    (l : List (ℚ × SpeedEntry)) (hnn : ∀ e ∈ l, 0 ≤ entryVal e.2) :
    (isPresent (speeds.getD i SpeedEntry.missing) = false →
      speedVal speeds i = 0) ∧
    avgSpeedAtScene (toPost l) ≤ avgSpeedAtScene (exclPost l) ∧
    (stayedAtScene (exclPost l) = true → stayedAtScene (toPost l) = true) := by
  have hBA : (l.filter fun e => decide (e.1 < 2500) && isPresent e.2) =
      (l.filter fun e => decide (e.1 < 2500)).filter
        fun e => isPresent e.2 := by
    rw [List.filter_filter]
    refine List.filter_congr ?_
    intro a _
    rw [Bool.and_comm]
  have hnC : numPointsAtScene (toPost l) =
      (l.filter fun e => decide (e.1 < 2500)).length := by
    unfold numPointsAtScene
    rw [scenePoints_toPost, List.length_map]
  have hnE : numPointsAtScene (exclPost l) =
      (l.filter fun e => decide (e.1 < 2500) && isPresent e.2).length := by
    unfold numPointsAtScene
    rw [scenePoints_exclPost, List.length_map]
  have hSC : ((scenePoints (toPost l)).map fun p => p.speed).sum =
      ((l.filter fun e => decide (e.1 < 2500)).map
        fun e => entryVal e.2).sum := by
    rw [scenePoints_toPost, List.map_map]
    rfl
  have hSE : ((scenePoints (exclPost l)).map fun p => p.speed).sum =
      ((l.filter fun e => decide (e.1 < 2500)).map
        fun e => entryVal e.2).sum := by
    rw [scenePoints_exclPost, List.map_map]
    have : ((l.filter fun e => decide (e.1 < 2500) && isPresent e.2).map
        ((fun p : PostPoint => p.speed) ∘
          fun e : ℚ × SpeedEntry =>
            ({ time_after := 0, d2 := e.1, speed := entryVal e.2 }
              : PostPoint))).sum =
        ((l.filter fun e => decide (e.1 < 2500) && isPresent e.2).map
          fun e => entryVal e.2).sum := rfl
    rw [this, hBA, sum_entryVal_filter_present]
  have hS0 : 0 ≤ ((l.filter fun e => decide (e.1 < 2500)).map
      fun e => entryVal e.2).sum := by
    refine List.sum_nonneg ?_
    intro x hx
    rcases List.mem_map.mp hx with ⟨e, he, rfl⟩
    exact hnn e (List.mem_filter.mp he).1
  have hlen : (l.filter fun e => decide (e.1 < 2500) && isPresent e.2).length ≤
      (l.filter fun e => decide (e.1 < 2500)).length := by
    rw [hBA]
    exact List.length_filter_le _ _
  have havg : avgSpeedAtScene (toPost l) ≤ avgSpeedAtScene (exclPost l) := by
    unfold avgSpeedAtScene
    rw [hSC, hSE, hnC, hnE]
    have hpos : (0 : ℚ) <
        ((max (l.filter fun e =>
          decide (e.1 < 2500) && isPresent e.2).length 1 : ℕ) : ℚ) := by
      have : 0 < max (l.filter fun e =>
          decide (e.1 < 2500) && isPresent e.2).length 1 := by omega
      exact_mod_cast this
    have hcle : ((max (l.filter fun e =>
        decide (e.1 < 2500) && isPresent e.2).length 1 : ℕ) : ℚ) ≤
        ((max (l.filter fun e => decide (e.1 < 2500)).length 1 : ℕ) : ℚ) := by
      have : max (l.filter fun e =>
          decide (e.1 < 2500) && isPresent e.2).length 1 ≤
          max (l.filter fun e => decide (e.1 < 2500)).length 1 := by omega
      exact_mod_cast this
    exact div_le_div_of_nonneg_left hS0 hpos hcle
  refine ⟨?_, havg, ?_⟩
  · intro h
    unfold speedVal
    cases hE : speeds.getD i SpeedEntry.missing with
    | missing => rfl
    | bad => rfl
    | val q =>
      rw [hE] at h
      exact absurd h (by simp [isPresent])
  · intro h
    unfold stayedAtScene at h ⊢
    rw [Bool.and_eq_true, decide_eq_true_eq, decide_eq_true_eq] at h
    obtain ⟨h3, h10⟩ := h
    rw [Bool.and_eq_true, decide_eq_true_eq, decide_eq_true_eq]
    constructor
    · rw [hnC]
      rw [hnE] at h3
      omega
    · exact lt_of_le_of_lt havg h10

theorem C10_missing_speed_default_witness :
    (∀ e ∈ ([(0, SpeedEntry.val 6), (0, SpeedEntry.missing),
        (0, SpeedEntry.val 6)] : List (ℚ × SpeedEntry)), 0 ≤ entryVal e.2) ∧
    isPresent (([SpeedEntry.missing] : List SpeedEntry).getD 0
      SpeedEntry.missing) = false ∧
    speedVal [SpeedEntry.missing] 0 = 0 ∧
    avgSpeedAtScene (toPost [(0, SpeedEntry.val 6), (0, SpeedEntry.missing),
      (0, SpeedEntry.val 6)]) ≤
      avgSpeedAtScene (exclPost [(0, SpeedEntry.val 6),
        (0, SpeedEntry.missing), (0, SpeedEntry.val 6)]) := by
  have hnn : ∀ e ∈ ([(0, SpeedEntry.val 6), (0, SpeedEntry.missing),
      (0, SpeedEntry.val 6)] : List (ℚ × SpeedEntry)), 0 ≤ entryVal e.2 := by
    intro e he
    simp only [List.mem_cons, List.not_mem_nil, or_false] at he
    rcases he with rfl | rfl | rfl <;> norm_num [entryVal]
  have hc := C10_missing_speed_default [SpeedEntry.missing] 0
    [(0, SpeedEntry.val 6), (0, SpeedEntry.missing), (0, SpeedEntry.val 6)]
    hnn
  exact ⟨hnn, by simp [isPresent, List.getD], hc.1 (by simp [isPresent, List.getD]),
    hc.2.1⟩
